import Mathlib

/-!
Verification of the ethers-fallback-provider dispatch engine.

The repository ships `src/utils/ws-util.ts` (embedded below as
`isWebSocketProvider`) and a test suite for `FallbackProvider.ts`
(`perform`, `validateAndGetNetwork`); the `FallbackProvider.ts`
implementation file itself is absent from the source tree, so the
dispatcher and the network validator are modelled from the
specification's words (§4.1–§4.4, §7) and checked against the
behaviours fixed by the test suite.
-/

namespace FallbackProvider

/-- Canonical WebSocket lifecycle states (numeric codes 0..3 in the tests:
`CONNECTING = 0`, `OPEN = 1`, `CLOSING = 2`, `CLOSED = 3`). -/
inductive WsReadyState where
  | CONNECTING
  | OPEN
  | CLOSING
  | CLOSED
deriving DecidableEq, Repr

/-- Modelled from the spec: an Endpoint Descriptor (§3) joined with the
behaviour of its Endpoint Capability (§6), since `FallbackProvider.ts` is
missing from the source tree.
`name` identifies the endpoint; `retries` is the configured non-negative
retry budget; `socket = some f` means the capability exposes a stateful
socket transport whose observed ready state, after the Readiness Gate's
bounded wait, is `f t` when consulted after `t` invocations have happened
globally (readiness may change as a side effect of invoking other
endpoints, which is why it depends on the global invocation count);
`socket = none` means no stateful transport.  `invoke k` is the outcome of
this endpoint's `k`-th invocation (`some r` = success with result `r`,
`none` = invocation failure).  `network` is the endpoint's self-reported
network identity (`none` = detection failed or sentinel "no network"). -/
structure Endpoint where
  name : String
  retries : Nat
  socket : Option (Nat → WsReadyState)
  invoke : Nat → Option String
  network : Option Nat

/-- Modelled from the spec: `maxAttempts = configured_retries + 1` (§3). -/
def Endpoint.maxAttempts (e : Endpoint) : Nat := e.retries + 1

/-- Modelled from the spec: the Endpoint Registry (§4.2) normalizes a bare
capability (no retries given) or a `{capability, retries}` pair into a
descriptor; the default retry budget is 0. -/
def normalizeEndpoint (name : String) (socket : Option (Nat → WsReadyState))
    (invoke : Nat → Option String) (network : Option Nat)
    (retries : Option Nat) : Endpoint :=
  { name := name, retries := retries.getD 0, socket := socket,
    invoke := invoke, network := network }

/-- Validation-time failures (§7). -/
inductive ValidationError where
  | NO_PROVIDER
  | CANNOT_DETECT_NETWORKS
  | INCONSISTENT_NETWORKS
deriving DecidableEq, Repr

/-- Modelled from the spec: `validateAndGetNetwork` (§4.1), absent from the
source tree.  Fails with `NO_PROVIDER` on an empty list; partitions the
endpoints into detected and undetected by whether a network identity was
obtained; fails with `CANNOT_DETECT_NETWORKS` when no endpoint reported a
network, with `INCONSISTENT_NETWORKS` when two detected identities differ;
otherwise returns the common identity together with the detected endpoints
in their original relative order. -/
def validateAndGetNetwork (es : List Endpoint) :
    Except ValidationError (Nat × List Endpoint) :=
  if es.isEmpty then .error .NO_PROVIDER
  else
    match es.filterMap (fun e => e.network) with
    | [] => .error .CANNOT_DETECT_NETWORKS
    | n :: restNets =>
      if restNets.all (fun m => m == n) then
        .ok (n, es.filter (fun e => e.network.isSome))
      else .error .INCONSISTENT_NETWORKS

/-- Shallow embedding of `src/utils/ws-util.ts`: the two observations the
JavaScript predicate makes on an arbitrary value: whether it is an
`instanceof WebSocketProvider`, and whether its `_websocket` property is
truthy. -/
structure ProviderLike where
  isWebSocketProviderInstance : Bool
  websocketTruthy : Bool
deriving DecidableEq, Repr

/-- Embedding of `isWebSocketProvider` from `src/utils/ws-util.ts`:
`provider instanceof WebSocketProvider || !!provider._websocket`. -/
def isWebSocketProvider (p : ProviderLike) : Bool :=
  p.isWebSocketProviderInstance || p.websocketTruthy

/-- Outcome of consulting the Readiness Gate for one endpoint. -/
inductive GateResult where
  | ready
  | deferCandidate
  | skip
deriving DecidableEq, Repr

/-- Modelled from the spec: the Readiness Gate (§4.3), part of the missing
`FallbackProvider.ts`.  An endpoint without a stateful transport is always
ready.  For a socket endpoint the observed state after the gate's bounded
wait, `f t`, decides: `OPEN` is callable; `CONNECTING` (the bounded wait
expired without reaching `OPEN`) is not ready for this pass but retained
as a revisit candidate; `CLOSING`/`CLOSED` cannot recover without external
reconnection, so the endpoint is skipped with no wait and no revisit
(fixed by the tests: a `CLOSING` first endpoint with a failing fallback
yields the fallback's named failure, not a readiness timeout). -/
def gateCheck (e : Endpoint) (t : Nat) : GateResult :=
  match e.socket with
  | none => .ready
  | some f =>
    match f t with
    | .OPEN => .ready
    | .CONNECTING => .deferCandidate
    | .CLOSING => .skip
    | .CLOSED => .skip

/-- A trace entry: this endpoint (by name) was invoked, with its
per-endpoint attempt index. -/
abbrev TraceEntry := String × Nat

/-- The last failure recorded while walking the endpoints: an invocation
failure of a named endpoint, or a readiness timeout of a revisited
endpoint that never became ready. -/
inductive FailureEvent where
  | invocation (name : String)
  | readinessTimeout
deriving DecidableEq, Repr

/-- State produced by a walk over (part of) the endpoint list. -/
structure RunState where
  result : Option String
  trace : List TraceEntry
  deferred : List Endpoint
  lastFailure : Option FailureEvent

/-- Modelled from the spec: the per-endpoint attempt loop (§4.4 step 1).
Invokes `e` at per-endpoint attempt indices `k, k+1, ...` while `fuel`
attempts remain, appending one trace entry per invocation; stops at the
first success or when the budget is exhausted. -/
def attemptFrom (e : Endpoint) (k fuel : Nat) (tr : List TraceEntry) :
    Option String × List TraceEntry :=
  match fuel with
  | 0 => (none, tr)
  | fuel' + 1 =>
    match e.invoke k with
    | some r => (some r, tr ++ [(e.name, k)])
    | none => attemptFrom e (k + 1) fuel' (tr ++ [(e.name, k)])

/-- Modelled from the spec: the single ordered pass of the Fallback
Dispatcher (§4.4 steps 1–2).  The global time at which the gate is
consulted is the length of the trace so far (the number of invocations
already made).  A ready endpoint is invoked up to `maxAttempts` times; the
first success short-circuits; exhaustion records an invocation failure and
moves to the next endpoint; a connecting endpoint is deferred without
being invoked; a closing/closed endpoint is skipped outright. -/
def runPass : List Endpoint → List TraceEntry → List Endpoint →
    Option FailureEvent → RunState
  | [], tr, d, l => ⟨none, tr, d, l⟩
  | e :: rest, tr, d, l =>
    match gateCheck e tr.length with
    | .skip => runPass rest tr d l
    | .deferCandidate => runPass rest tr (d ++ [e]) l
    | .ready =>
      match attemptFrom e 0 e.maxAttempts tr with
      | (some r, tr2) => ⟨some r, tr2, d, l⟩
      | (none, tr2) => runPass rest tr2 d (some (.invocation e.name))

/-- Modelled from the spec: the bounded second attempt on deferred
endpoints (§4.4 step 3).  Each deferred endpoint's readiness is consulted
once more (it may have changed as a side effect of earlier invocations); a
now-ready endpoint is invoked under its attempt budget, and one that still
never became ready records a readiness timeout. -/
def runRevisit : List Endpoint → List TraceEntry → Option FailureEvent →
    RunState
  | [], tr, l => ⟨none, tr, [], l⟩
  | e :: rest, tr, l =>
    match gateCheck e tr.length with
    | .ready =>
      match attemptFrom e 0 e.maxAttempts tr with
      | (some r, tr2) => ⟨some r, tr2, [], l⟩
      | (none, tr2) => runRevisit rest tr2 (some (.invocation e.name))
    | _ => runRevisit rest tr (some .readinessTimeout)

/-- Outcome of a `perform` call: success with the first successful result,
an aggregated failure naming the last endpoint whose invocation failed,
the distinguished "timeout exceeded" readiness failure, or the degenerate
case in which nothing was ever attempted or deferred (the spec leaves it
unspecified). -/
inductive PerformOutcome where
  | success (result : String)
  | endpointFailure (name : String)
  | timeoutExceeded
  | noAttempt
deriving DecidableEq, Repr

/-- Modelled from the spec: `perform` (§4.4), the core dispatch state
machine of the missing `FallbackProvider.ts`.  Runs the ordered pass; on
failure, the single revisit of the deferred endpoints; if no invocation
ever succeeded, the surfaced aggregated failure is determined by the last
recorded failure event — a readiness timeout yields the distinguished
"timeout exceeded" outcome, an invocation failure names that (last
attempted) endpoint.  Returns the outcome together with the full
invocation trace. -/
def perform (es : List Endpoint) : PerformOutcome × List TraceEntry :=
  let s := runPass es [] [] none
  match s.result with
  | some r => (.success r, s.trace)
  | none =>
    let s2 := runRevisit s.deferred s.trace s.lastFailure
    match s2.result with
    | some r => (.success r, s2.trace)
    | none =>
      match s2.lastFailure with
      | some (.invocation n) => (.endpointFailure n, s2.trace)
      | some .readinessTimeout => (.timeoutExceeded, s2.trace)
      | none => (.noAttempt, s2.trace)

/-- Number of invocations of the endpoint named `n` recorded in the
trace `tr`. -/
def countName (tr : List TraceEntry) (n : String) : Nat :=
  tr.countP (fun p => p.1 == n)

/-- Combined attempt budget of the endpoints named `n` in `es`. -/
def budget (es : List Endpoint) (n : String) : Nat :=
  (es.map (fun e => if e.name == n then e.maxAttempts else 0)).sum

/-- Trace left behind when every endpoint in `es` is attempted in order
and every attempt fails: each endpoint contributes its whole budget. -/
def fullFailTrace (es : List Endpoint) : List TraceEntry :=
  match es with
  | [] => []
  | e :: rest =>
    (List.range' 0 e.maxAttempts).map (fun j => (e.name, j)) ++
      fullFailTrace rest

/-- Last-failure marker after every endpoint in `es` fails in order,
starting from the marker `l`. -/
def lastInvocationFailure (es : List Endpoint) (l : Option FailureEvent) :
    Option FailureEvent :=
  match es with
  | [] => l
  | e :: rest => lastInvocationFailure rest (some (.invocation e.name))

/-! ### Concrete endpoints mirroring the test helpers -/

/-- Mirror of the test helper `MockProvider`: no socket transport, every
invocation succeeds with the fixed result `v`, detected network `net`. -/
def mockEndpoint (n v : String) (net : Nat) : Endpoint :=
  ⟨n, 0, none, fun _ => some v, some net⟩

/-- Mirror of the test helper `FailingProvider` with an inexhaustible
failure budget: every invocation fails. -/
def failingEndpoint (n : String) : Endpoint :=
  ⟨n, 0, none, fun _ => none, some 1⟩

/-- Mirror of the test helper `MockWebsocketProvider`: socket transport
with ready-state schedule `f`, every invocation succeeds with `v`. -/
def wsEndpoint (n : String) (f : Nat → WsReadyState) (v : String) : Endpoint :=
  ⟨n, 0, some f, fun _ => some v, some 1⟩

/-! ### Helper lemmas about the attempt loop -/

/-- If the first success of `e` is at attempt `m` (every earlier attempt
from `k` on fails) and `m` is within the remaining budget, the attempt
loop returns that result and appends exactly the attempts `k..m`. -/
theorem attemptFrom_firstSuccess (e : Endpoint) (r : String) :
    ∀ (fuel k m : Nat) (tr : List TraceEntry),
      k ≤ m → m < k + fuel →
      (∀ j, k ≤ j → j < m → e.invoke j = none) →
      e.invoke m = some r →
      attemptFrom e k fuel tr =
        (some r, tr ++ (List.range' k (m - k + 1)).map (fun j => (e.name, j))) := by
  intro fuel
  induction fuel with
  | zero => intro k m tr hkm hm _ _; omega
  | succ fuel ih =>
    intro k m tr hkm hm hfail hsucc
    by_cases hk : k = m
    · subst hk
      simp [attemptFrom, hsucc, List.range'_succ]
    · have hklt : k < m := lt_of_le_of_ne hkm hk
      have h0 : e.invoke k = none := hfail k (Nat.le_refl k) hklt
      have hrec := ih (k + 1) m (tr ++ [(e.name, k)]) (by omega) (by omega)
        (fun j h1 h2 => hfail j (by omega) h2) hsucc
      rw [attemptFrom]
      simp only [h0]
      rw [hrec]
      have harith : m - k + 1 = (m - (k + 1) + 1) + 1 := by omega
      have hr : List.range' k (m - k + 1) =
          k :: List.range' (k + 1) (m - (k + 1) + 1) := by
        rw [harith]; rw [List.range'_succ]
      rw [hr]
      simp

/-- If every attempt in the budget fails, the attempt loop exhausts the
budget, appending exactly the attempts `k..k+fuel-1`, and reports no
result. -/
theorem attemptFrom_allFail (e : Endpoint) :
    ∀ (fuel k : Nat) (tr : List TraceEntry),
      (∀ j, k ≤ j → j < k + fuel → e.invoke j = none) →
      attemptFrom e k fuel tr =
        (none, tr ++ (List.range' k fuel).map (fun j => (e.name, j))) := by
  intro fuel
  induction fuel with
  | zero => intro k tr _; simp [attemptFrom]
  | succ fuel ih =>
    intro k tr h
    have h0 : e.invoke k = none := h k (Nat.le_refl k) (by omega)
    rw [attemptFrom]
    simp only [h0]
    rw [ih (k + 1) (tr ++ [(e.name, k)]) (fun j h1 h2 => h j (by omega) (by omega))]
    rw [List.range'_succ]
    simp

/-! ### Step lemmas for the ordered pass and the revisit -/

/-- A closing/closed socket endpoint is skipped outright. -/
theorem runPass_cons_skip (e : Endpoint) (rest : List Endpoint)
    (tr : List TraceEntry) (d : List Endpoint) (l : Option FailureEvent)
    (hg : gateCheck e tr.length = .skip) :
    runPass (e :: rest) tr d l = runPass rest tr d l := by
  rw [runPass, hg]

/-- A connecting socket endpoint is deferred without being invoked. -/
theorem runPass_cons_defer (e : Endpoint) (rest : List Endpoint)
    (tr : List TraceEntry) (d : List Endpoint) (l : Option FailureEvent)
    (hg : gateCheck e tr.length = .deferCandidate) :
    runPass (e :: rest) tr d l = runPass rest tr (d ++ [e]) l := by
  rw [runPass, hg]

/-- A ready endpoint whose attempt loop succeeds ends the pass. -/
theorem runPass_cons_ready_some (e : Endpoint) (rest : List Endpoint)
    (tr tr2 : List TraceEntry) (d : List Endpoint) (l : Option FailureEvent)
    (r : String) (hg : gateCheck e tr.length = .ready)
    (hA : attemptFrom e 0 e.maxAttempts tr = (some r, tr2)) :
    runPass (e :: rest) tr d l = ⟨some r, tr2, d, l⟩ := by
  rw [runPass, hg, hA]

/-- A ready endpoint whose whole budget fails marks an invocation failure
and the pass moves on to the next endpoint. -/
theorem runPass_cons_ready_none (e : Endpoint) (rest : List Endpoint)
    (tr tr2 : List TraceEntry) (d : List Endpoint) (l : Option FailureEvent)
    (hg : gateCheck e tr.length = .ready)
    (hA : attemptFrom e 0 e.maxAttempts tr = (none, tr2)) :
    runPass (e :: rest) tr d l =
      runPass rest tr2 d (some (.invocation e.name)) := by
  rw [runPass, hg, hA]

/-- A revisited endpoint that became ready and succeeds ends the call. -/
theorem runRevisit_cons_ready_some (e : Endpoint) (rest : List Endpoint)
    (tr tr2 : List TraceEntry) (l : Option FailureEvent) (r : String)
    (hg : gateCheck e tr.length = .ready)
    (hA : attemptFrom e 0 e.maxAttempts tr = (some r, tr2)) :
    runRevisit (e :: rest) tr l = ⟨some r, tr2, [], l⟩ := by
  rw [runRevisit, hg, hA]

/-- A revisited endpoint that became ready but exhausts its budget marks
an invocation failure. -/
theorem runRevisit_cons_ready_none (e : Endpoint) (rest : List Endpoint)
    (tr tr2 : List TraceEntry) (l : Option FailureEvent)
    (hg : gateCheck e tr.length = .ready)
    (hA : attemptFrom e 0 e.maxAttempts tr = (none, tr2)) :
    runRevisit (e :: rest) tr l =
      runRevisit rest tr2 (some (.invocation e.name)) := by
  rw [runRevisit, hg, hA]

/-- A revisited endpoint that still never became ready records a
readiness timeout and is not invoked. -/
theorem runRevisit_cons_unready (e : Endpoint) (rest : List Endpoint)
    (tr : List TraceEntry) (l : Option FailureEvent)
    (hg : gateCheck e tr.length ≠ .ready) :
    runRevisit (e :: rest) tr l =
      runRevisit rest tr (some .readinessTimeout) := by
  rw [runRevisit]
  cases hg2 : gateCheck e tr.length with
  | ready => exact absurd hg2 hg
  | deferCandidate => rfl
  | skip => rfl

/-! ### Composition lemmas for the ordered pass -/

/-- If the pass over a prefix produces no success, the pass over the whole
list continues into the suffix from the prefix's final state. -/
theorem runPass_append_of_none (xs ys : List Endpoint) :
    ∀ (tr : List TraceEntry) (d : List Endpoint) (l : Option FailureEvent),
      (runPass xs tr d l).result = none →
      runPass (xs ++ ys) tr d l =
        runPass ys (runPass xs tr d l).trace (runPass xs tr d l).deferred
          (runPass xs tr d l).lastFailure := by
  induction xs with
  | nil => intro tr d l _; simp [runPass]
  | cons e rest ih =>
    intro tr d l hres
    rw [List.cons_append]
    cases hg : gateCheck e tr.length with
    | skip =>
      rw [runPass_cons_skip e rest tr d l hg] at hres ⊢
      rw [runPass_cons_skip e (rest ++ ys) tr d l hg]
      exact ih _ _ _ hres
    | deferCandidate =>
      rw [runPass_cons_defer e rest tr d l hg] at hres ⊢
      rw [runPass_cons_defer e (rest ++ ys) tr d l hg]
      exact ih _ _ _ hres
    | ready =>
      rcases hA : attemptFrom e 0 e.maxAttempts tr with ⟨res, tr2⟩
      cases res with
      | some r =>
        rw [runPass_cons_ready_some e rest tr tr2 d l r hg hA] at hres
        simp at hres
      | none =>
        rw [runPass_cons_ready_none e rest tr tr2 d l hg hA] at hres ⊢
        rw [runPass_cons_ready_none e (rest ++ ys) tr tr2 d l hg hA]
        exact ih _ _ _ hres

/-- If the pass over a prefix already succeeds, the suffix changes
nothing. -/
theorem runPass_append_of_some (xs ys : List Endpoint) :
    ∀ (tr : List TraceEntry) (d : List Endpoint) (l : Option FailureEvent)
      (r : String),
      (runPass xs tr d l).result = some r →
      runPass (xs ++ ys) tr d l = runPass xs tr d l := by
  induction xs with
  | nil => intro tr d l r hres; simp [runPass] at hres
  | cons e rest ih =>
    intro tr d l r hres
    rw [List.cons_append]
    cases hg : gateCheck e tr.length with
    | skip =>
      rw [runPass_cons_skip e rest tr d l hg] at hres ⊢
      rw [runPass_cons_skip e (rest ++ ys) tr d l hg]
      exact ih _ _ _ _ hres
    | deferCandidate =>
      rw [runPass_cons_defer e rest tr d l hg] at hres ⊢
      rw [runPass_cons_defer e (rest ++ ys) tr d l hg]
      exact ih _ _ _ _ hres
    | ready =>
      rcases hA : attemptFrom e 0 e.maxAttempts tr with ⟨res, tr2⟩
      cases res with
      | some r2 =>
        rw [runPass_cons_ready_some e rest tr tr2 d l r2 hg hA] at hres ⊢
        rw [runPass_cons_ready_some e (rest ++ ys) tr tr2 d l r2 hg hA]
      | none =>
        rw [runPass_cons_ready_none e rest tr tr2 d l hg hA] at hres ⊢
        rw [runPass_cons_ready_none e (rest ++ ys) tr tr2 d l hg hA]
        exact ih _ _ _ _ hres

/-! ### Counting lemmas: the per-endpoint invocation budget -/

/-- An endpoint without a stateful transport is always gate-ready. -/
theorem gateCheck_of_no_socket (e : Endpoint) (t : Nat)
    (h : e.socket = none) : gateCheck e t = .ready := by
  unfold gateCheck
  rw [h]

/-- Trace counts add over concatenation. -/
theorem countName_append (a b : List TraceEntry) (n : String) :
    countName (a ++ b) n = countName a n + countName b n := by
  simp [countName, List.countP_append]

/-- Budgets add over concatenation. -/
theorem budget_append (xs ys : List Endpoint) (n : String) :
    budget (xs ++ ys) n = budget xs n + budget ys n := by
  simp [budget]

/-- Budget of a cons cell. -/
theorem budget_cons (e : Endpoint) (es : List Endpoint) (n : String) :
    budget (e :: es) n =
      (if e.name == n then e.maxAttempts else 0) + budget es n := by
  simp [budget]

/-- Endpoints named differently contribute no budget. -/
theorem budget_eq_zero (es : List Endpoint) (n : String)
    (h : ∀ e ∈ es, e.name ≠ n) : budget es n = 0 := by
  induction es with
  | nil => simp [budget]
  | cons e rest ih =>
    rw [budget_cons]
    have he : e.name ≠ n := h e (List.mem_cons_self e rest)
    simp only [beq_iff_eq, he, if_false]
    rw [Nat.zero_add]
    exact ih (fun x hx => h x (List.mem_cons_of_mem e hx))

/-- With pairwise-distinct names, the budget of a member's name is its
own attempt budget. -/
theorem budget_of_nodup (es : List Endpoint) (e : Endpoint)
    (hnd : (es.map (fun x => x.name)).Nodup) (hmem : e ∈ es) :
    budget es e.name = e.maxAttempts := by
  induction es with
  | nil => simp at hmem
  | cons a rest ih =>
    rw [List.map_cons, List.nodup_cons] at hnd
    rcases List.mem_cons.mp hmem with h1 | h1
    · subst h1
      rw [budget_cons]
      have hz : budget rest e.name = 0 := by
        refine budget_eq_zero rest e.name (fun x hx hxe => ?_)
        exact hnd.1 (hxe ▸ List.mem_map_of_mem (fun y => y.name) hx)
      simp [hz]
    · have hne : a.name ≠ e.name := by
        intro hc
        exact hnd.1 (hc ▸ List.mem_map_of_mem (fun y => y.name) h1)
      rw [budget_cons]
      simp only [beq_iff_eq, hne, if_false]
      rw [ih hnd.2 h1]
      simp

/-- The attempt loop adds at most `fuel` invocations of `e`'s name (and
none of any other name) to the trace. -/
theorem attemptFrom_count (e : Endpoint) (n : String) :
    ∀ (fuel k : Nat) (tr : List TraceEntry),
      countName (attemptFrom e k fuel tr).2 n ≤
        countName tr n + (if e.name == n then fuel else 0) := by
  intro fuel
  induction fuel with
  | zero => intro k tr; simp [attemptFrom]
  | succ fuel ih =>
    intro k tr
    rw [attemptFrom]
    have hone : countName (tr ++ [(e.name, k)]) n =
        countName tr n + (if e.name == n then 1 else 0) := by
      rw [countName_append]
      by_cases h : e.name = n <;> simp [countName, h]
    cases hi : e.invoke k with
    | some r =>
      simp only
      rw [hone]
      by_cases h : e.name = n <;> simp [h]
    | none =>
      simp only
      calc countName (attemptFrom e (k + 1) fuel (tr ++ [(e.name, k)])).2 n ≤
            countName (tr ++ [(e.name, k)]) n +
              (if e.name == n then fuel else 0) := ih (k + 1) _
        _ ≤ countName tr n + (if e.name == n then fuel + 1 else 0) := by
            rw [hone]
            by_cases h : e.name = n <;> simp [h] <;> omega

/-- Walking the pass, the trace count of `n` plus the budget still parked
in the deferred list grows by at most the budget of `n` in the endpoints
walked. -/
theorem runPass_count (n : String) :
    ∀ (es : List Endpoint) (tr : List TraceEntry) (d : List Endpoint)
      (l : Option FailureEvent),
      countName (runPass es tr d l).trace n +
          budget (runPass es tr d l).deferred n ≤
        countName tr n + budget d n + budget es n := by
  intro es
  induction es with
  | nil => intro tr d l; simp [runPass]
  | cons e rest ih =>
    intro tr d l
    cases hg : gateCheck e tr.length with
    | skip =>
      rw [runPass_cons_skip e rest tr d l hg]
      calc countName (runPass rest tr d l).trace n +
            budget (runPass rest tr d l).deferred n ≤
            countName tr n + budget d n + budget rest n := ih tr d l
        _ ≤ countName tr n + budget d n + budget (e :: rest) n := by
            rw [budget_cons]; omega
    | deferCandidate =>
      rw [runPass_cons_defer e rest tr d l hg]
      calc countName (runPass rest tr (d ++ [e]) l).trace n +
            budget (runPass rest tr (d ++ [e]) l).deferred n ≤
            countName tr n + budget (d ++ [e]) n + budget rest n :=
              ih tr (d ++ [e]) l
        _ ≤ countName tr n + budget d n + budget (e :: rest) n := by
            rw [budget_append, budget_cons, budget_cons]
            simp [budget]; omega
    | ready =>
      rcases hA : attemptFrom e 0 e.maxAttempts tr with ⟨res, tr2⟩
      have hcnt : countName tr2 n ≤
          countName tr n + (if e.name == n then e.maxAttempts else 0) := by
        have := attemptFrom_count e n e.maxAttempts 0 tr
        rw [hA] at this
        exact this
      cases res with
      | some r =>
        rw [runPass_cons_ready_some e rest tr tr2 d l r hg hA]
        simp only
        rw [budget_cons]
        omega
      | none =>
        rw [runPass_cons_ready_none e rest tr tr2 d l hg hA]
        calc countName (runPass rest tr2 d
              (some (.invocation e.name))).trace n +
            budget (runPass rest tr2 d
              (some (.invocation e.name))).deferred n ≤
            countName tr2 n + budget d n + budget rest n := ih tr2 d _
          _ ≤ countName tr n + budget d n + budget (e :: rest) n := by
              rw [budget_cons]; omega

/-- The revisit adds at most the deferred endpoints' budgets to the
trace. -/
theorem runRevisit_count (n : String) :
    ∀ (ds : List Endpoint) (tr : List TraceEntry) (l : Option FailureEvent),
      countName (runRevisit ds tr l).trace n ≤
        countName tr n + budget ds n := by
  intro ds
  induction ds with
  | nil => intro tr l; simp [runRevisit]
  | cons e rest ih =>
    intro tr l
    cases hg : gateCheck e tr.length with
    | ready =>
      rcases hA : attemptFrom e 0 e.maxAttempts tr with ⟨res, tr2⟩
      have hcnt : countName tr2 n ≤
          countName tr n + (if e.name == n then e.maxAttempts else 0) := by
        have := attemptFrom_count e n e.maxAttempts 0 tr
        rw [hA] at this
        exact this
      cases res with
      | some r =>
        rw [runRevisit_cons_ready_some e rest tr tr2 l r hg hA]
        simp only
        rw [budget_cons]
        omega
      | none =>
        rw [runRevisit_cons_ready_none e rest tr tr2 l hg hA]
        calc countName (runRevisit rest tr2
              (some (.invocation e.name))).trace n ≤
            countName tr2 n + budget rest n := ih tr2 _
          _ ≤ countName tr n + budget (e :: rest) n := by
              rw [budget_cons]; omega
    | deferCandidate =>
      rw [runRevisit_cons_unready e rest tr l (by rw [hg]; intro h; cases h)]
      calc countName (runRevisit rest tr (some .readinessTimeout)).trace n ≤
          countName tr n + budget rest n := ih tr _
        _ ≤ countName tr n + budget (e :: rest) n := by
            rw [budget_cons]; omega
    | skip =>
      rw [runRevisit_cons_unready e rest tr l (by rw [hg]; intro h; cases h)]
      calc countName (runRevisit rest tr (some .readinessTimeout)).trace n ≤
          countName tr n + budget rest n := ih tr _
        _ ≤ countName tr n + budget (e :: rest) n := by
            rw [budget_cons]; omega

/-- Whatever happens, a `perform` call invokes the endpoints named `n` at
most their combined budget many times. -/
theorem perform_count (es : List Endpoint) (n : String) :
    countName (perform es).2 n ≤ budget es n := by
  have hp := runPass_count n es [] [] none
  simp only [countName, List.countP_nil, budget, List.map_nil,
    List.sum_nil, Nat.zero_add] at hp
  unfold perform
  cases hres : (runPass es [] [] none).result with
  | some r =>
    simp only [hres]
    have : countName (runPass es [] [] none).trace n ≤ budget es n := by
      have := hp
      simp only [countName, budget] at this ⊢
      omega
    exact this
  | none =>
    simp only [hres]
    have hr := runRevisit_count n (runPass es [] [] none).deferred
      (runPass es [] [] none).trace (runPass es [] [] none).lastFailure
    have hb : countName (runRevisit (runPass es [] [] none).deferred
        (runPass es [] [] none).trace
        (runPass es [] [] none).lastFailure).trace n ≤ budget es n := by
      simp only [countName, budget] at hr hp ⊢
      omega
    cases hres2 : (runRevisit (runPass es [] [] none).deferred
        (runPass es [] [] none).trace
        (runPass es [] [] none).lastFailure).result with
    | some r => simp only [hres2]; exact hb
    | none =>
      simp only [hres2]
      cases hlf : (runRevisit (runPass es [] [] none).deferred
          (runPass es [] [] none).trace
          (runPass es [] [] none).lastFailure).lastFailure with
      | some ev => cases ev <;> simp only <;> exact hb
      | none => simp only; exact hb

/-- A pass over endpoints without socket transports defers nothing and
can only leave the initial marker or an invocation-failure marker. -/
theorem runPass_plain_inv (es : List Endpoint) :
    ∀ (tr : List TraceEntry) (d : List Endpoint) (l : Option FailureEvent),
      (∀ e ∈ es, e.socket = none) →
      (runPass es tr d l).deferred = d ∧
      ((runPass es tr d l).lastFailure = l ∨
        ∃ n, (runPass es tr d l).lastFailure = some (.invocation n)) := by
  induction es with
  | nil => intro tr d l _; exact ⟨rfl, Or.inl rfl⟩
  | cons e rest ih =>
    intro tr d l hsock
    have hg : gateCheck e tr.length = .ready :=
      gateCheck_of_no_socket e _ (hsock e (List.mem_cons_self e rest))
    rcases hA : attemptFrom e 0 e.maxAttempts tr with ⟨res, tr2⟩
    cases res with
    | some r =>
      rw [runPass_cons_ready_some e rest tr tr2 d l r hg hA]
      exact ⟨rfl, Or.inl rfl⟩
    | none =>
      rw [runPass_cons_ready_none e rest tr tr2 d l hg hA]
      have hrec := ih tr2 d (some (.invocation e.name))
        (fun x hx => hsock x (List.mem_cons_of_mem e hx))
      refine ⟨hrec.1, ?_⟩
      rcases hrec.2 with h | ⟨n, h⟩
      · exact Or.inr ⟨e.name, h⟩
      · exact Or.inr ⟨n, h⟩

/-- Auxiliary: if the pass over the prefix `pre` ends with no success,
`e` is gate-ready when reached and first succeeds at attempt `k` within
its budget, the whole call returns `e`'s result and the trace stops at
`e`'s attempts `0..k`. -/
theorem perform_prefix_first_success
    (pre : List Endpoint) (e : Endpoint) (rest : List Endpoint)
    (k : Nat) (r : String)
    (hpre : (runPass pre [] [] none).result = none)
    (hg : gateCheck e (runPass pre [] [] none).trace.length = .ready)
    (hfail : ∀ j, j < k → e.invoke j = none)
    (hsucc : e.invoke k = some r)
    (hk : k < e.maxAttempts) :
    perform (pre ++ e :: rest) =
      (.success r, (runPass pre [] [] none).trace ++
        (List.range' 0 (k + 1)).map (fun j => (e.name, j))) := by
  have hA := attemptFrom_firstSuccess e r e.maxAttempts 0 k
    (runPass pre [] [] none).trace (Nat.zero_le k) (by omega)
    (fun j _ hj => hfail j hj) hsucc
  rw [Nat.sub_zero] at hA
  have hstep := runPass_cons_ready_some e rest
    (runPass pre [] [] none).trace _
    (runPass pre [] [] none).deferred
    (runPass pre [] [] none).lastFailure r hg hA
  have happ := runPass_append_of_none pre (e :: rest) [] [] none hpre
  unfold perform
  rw [happ, hstep]

/-- Every endpoint has at least one attempt in its budget. -/
theorem maxAttempts_pos (e : Endpoint) : 0 < e.maxAttempts :=
  Nat.succ_pos e.retries

/-- A pass over always-ready endpoints that all exhaust their budgets
invokes every endpoint's whole budget in order, defers nothing, and
leaves the last endpoint's invocation failure as the final marker. -/
theorem runPass_plain_allFail (es : List Endpoint) :
    ∀ (tr : List TraceEntry) (d : List Endpoint) (l : Option FailureEvent),
      (∀ e ∈ es, e.socket = none) →
      (∀ e ∈ es, ∀ j, j < e.maxAttempts → e.invoke j = none) →
      runPass es tr d l =
        ⟨none, tr ++ fullFailTrace es, d, lastInvocationFailure es l⟩ := by
  induction es with
  | nil => intro tr d l _ _; simp [runPass, fullFailTrace, lastInvocationFailure]
  | cons e rest ih =>
    intro tr d l hsock hfail
    have hg : gateCheck e tr.length = .ready :=
      gateCheck_of_no_socket e _ (hsock e (List.mem_cons_self e rest))
    have hA := attemptFrom_allFail e e.maxAttempts 0 tr
      (fun j _ hj => hfail e (List.mem_cons_self e rest) j (by omega))
    rw [runPass_cons_ready_none e rest tr _ d l hg hA]
    rw [ih _ d (some (.invocation e.name))
      (fun x hx => hsock x (List.mem_cons_of_mem e hx))
      (fun x hx => hfail x (List.mem_cons_of_mem e hx))]
    rw [fullFailTrace, lastInvocationFailure]
    simp

/-- The final failure marker is the marker of the last endpoint when the
list is non-empty, and the initial marker otherwise. -/
theorem lastInvocationFailure_eq_getLast? (es : List Endpoint) :
    ∀ (l : Option FailureEvent),
      lastInvocationFailure es l =
        es.getLast?.elim l (fun e => some (.invocation e.name)) := by
  induction es with
  | nil => intro l; rfl
  | cons e rest ih =>
    intro l
    rw [lastInvocationFailure, ih (some (.invocation e.name))]
    cases rest with
    | nil => rfl
    | cons b t =>
      rw [List.getLast?_cons_cons]
      rw [List.getLast?_eq_getLast (b :: t) (by simp)]
      rfl

/-- The final failure marker after a whole-list failure is the last
endpoint's invocation failure. -/
theorem lastInvocationFailure_of_ne_nil (es : List Endpoint)
    (l : Option FailureEvent) (hne : es ≠ []) :
    lastInvocationFailure es l =
      some (.invocation ((es.getLast hne).name)) := by
  rw [lastInvocationFailure_eq_getLast? es l]
  rw [List.getLast?_eq_getLast es hne]
  rfl

/-! ### Claim theorems -/

/-- C1: for every ordered endpoint list in which some endpoint's
invocation succeeds — here: the pass over the endpoints before `e` ends
with no success, `e` is ready when reached, and `e`'s first successful
attempt is attempt `k` within its budget — the first successful
invocation short-circuits `perform`: its result is returned unchanged,
and the trace is exactly the prefix's invocations followed by `e`'s
attempts `0..k`, so no endpoint after `e` is invoked, no further retries
are made, and no deferred revisit occurs. -/
theorem perform_first_success_short_circuits
    (pre : List Endpoint) (e : Endpoint) (rest : List Endpoint)
    (k : Nat) (r : String)
    (hpre : (runPass pre [] [] none).result = none)
    (hg : gateCheck e (runPass pre [] [] none).trace.length = .ready)
    (hfail : ∀ j, j < k → e.invoke j = none)
    (hsucc : e.invoke k = some r)
    (hk : k < e.maxAttempts) :
    perform (pre ++ e :: rest) =
      (.success r, (runPass pre [] [] none).trace ++
        (List.range' 0 (k + 1)).map (fun j => (e.name, j))) :=
  perform_prefix_first_success pre e rest k r hpre hg hfail hsucc hk

/-- C2: every endpoint configured with `r` retries is invoked at most
`maxAttempts = r + 1` times by any `perform` call (first conjunct, for
lists with pairwise-distinct endpoint names); the registry's default
retry budget is 0, so a bare capability gets one attempt (second
conjunct); an always-ready endpoint whose attempt `k` succeeds within the
budget short-circuits with its result and no later endpoint is invoked
(third conjunct); and when all of the first endpoint's `maxAttempts`
attempts fail, the dispatcher moves on to the next endpoint in order
(fourth conjunct, with a succeeding second endpoint as in the test). -/
theorem perform_retry_budget :
    (∀ (es : List Endpoint) (e : Endpoint),
        (es.map (fun x => x.name)).Nodup → e ∈ es →
        countName (perform es).2 e.name ≤ e.maxAttempts) ∧
    (∀ (name : String) (socket : Option (Nat → WsReadyState))
        (invoke : Nat → Option String) (network : Option Nat),
        (normalizeEndpoint name socket invoke network none).maxAttempts = 1) ∧
    (∀ (e : Endpoint) (rest : List Endpoint) (k : Nat) (r : String),
        e.socket = none → (∀ j, j < k → e.invoke j = none) →
        e.invoke k = some r → k < e.maxAttempts →
        perform (e :: rest) =
          (.success r, (List.range' 0 (k + 1)).map (fun j => (e.name, j)))) ∧
    (∀ (e e₂ : Endpoint) (rest : List Endpoint) (r : String),
        e.socket = none → (∀ j, j < e.maxAttempts → e.invoke j = none) →
        e₂.socket = none → e₂.invoke 0 = some r →
        perform (e :: e₂ :: rest) =
          (.success r,
            (List.range' 0 e.maxAttempts).map (fun j => (e.name, j)) ++
              [(e₂.name, 0)])) := by
  refine ⟨?_, ?_, ?_, ?_⟩
  · intro es e hnd hmem
    have h := perform_count es e.name
    rw [budget_of_nodup es e hnd hmem] at h
    exact h
  · intro name socket invoke network
    rfl
  · intro e rest k r hsock hfail hsucc hk
    have h := perform_prefix_first_success [] e rest k r rfl
      (gateCheck_of_no_socket e _ hsock) hfail hsucc hk
    simpa using h
  · intro e e₂ rest r hsock hfail hsock₂ hsucc₂
    have hA1 := attemptFrom_allFail e e.maxAttempts 0 []
      (fun j _ hj => hfail j (by omega))
    have hg1 : gateCheck e (List.length ([] : List TraceEntry)) = .ready :=
      gateCheck_of_no_socket e _ hsock
    have hstep1 := runPass_cons_ready_none e (e₂ :: rest) [] _ [] none hg1 hA1
    have hA2 := attemptFrom_firstSuccess e₂ r e₂.maxAttempts 0 0
      (([] : List TraceEntry) ++
        (List.range' 0 e.maxAttempts).map (fun j => (e.name, j)))
      (Nat.le_refl 0) (by have := maxAttempts_pos e₂; omega)
      (fun j _ hj => absurd hj (by omega)) hsucc₂
    have hg2 := gateCheck_of_no_socket e₂
      (List.length (([] : List TraceEntry) ++
        (List.range' 0 e.maxAttempts).map (fun j => (e.name, j)))) hsock₂
    have hstep2 := runPass_cons_ready_some e₂ rest _ _ []
      (some (.invocation e.name)) r hg2 hA2
    unfold perform
    rw [hstep1, hstep2]
    simp

/-- Witness for C2 at the test's concrete input: a first endpoint with 1
retry that always fails (2 total attempts) and a ready second endpoint;
`perform` invokes the first twice, then the second once, and returns the
second's result. -/
theorem perform_retry_budget_witness :
    (⟨"1", 1, none, fun _ => none, some 1⟩ : Endpoint).socket = none ∧
    perform [⟨"1", 1, none, fun _ => none, some 1⟩, mockEndpoint "2" "2" 1] =
      (.success "2", [("1", 0), ("1", 1), ("2", 0)]) :=
  ⟨rfl, by
    have h := perform_retry_budget.2.2.2
      ⟨"1", 1, none, fun _ => none, some 1⟩
      (mockEndpoint "2" "2" 1) [] "2" rfl (fun j _ => rfl) rfl rfl
    exact h⟩

/-- C3: when every endpoint is attempted (here: all are always-ready) and
every attempt of every endpoint fails, `perform` fails with the single
aggregated `endpointFailure` naming the last endpoint attempted — the
last of the list, since the pass attempts them in order — and the trace
records each endpoint's exhausted budget; no per-attempt failure is
surfaced on its own, the outcome being this one aggregated value. -/
theorem perform_all_fail_names_last
    (es : List Endpoint) (hne : es ≠ [])
    (hsock : ∀ e ∈ es, e.socket = none)
    (hfail : ∀ e ∈ es, ∀ j, j < e.maxAttempts → e.invoke j = none) :
    perform es =
      (.endpointFailure ((es.getLast hne).name), fullFailTrace es) := by
  have hpass : runPass es [] [] none =
      ⟨none, [] ++ fullFailTrace es, [],
       some (.invocation ((es.getLast hne).name))⟩ := by
    rw [runPass_plain_allFail es [] [] none hsock hfail]
    rw [lastInvocationFailure_of_ne_nil es none hne]
  unfold perform
  rw [hpass]
  simp [runRevisit]

/-- Witness for C3 at the test's concrete input: both endpoints always
failing; `perform` fails naming the second (last-attempted) endpoint. -/
theorem perform_all_fail_names_last_witness :
    ([failingEndpoint "1", failingEndpoint "2"] : List Endpoint) ≠ [] ∧
    perform [failingEndpoint "1", failingEndpoint "2"] =
      (.endpointFailure "2", [("1", 0), ("2", 0)]) :=
  ⟨by simp, by
    have h := perform_all_fail_names_last
      [failingEndpoint "1", failingEndpoint "2"] (by simp)
      (fun e he => by
        rcases List.mem_cons.mp he with rfl | he
        · rfl
        rcases List.mem_cons.mp he with rfl | he
        · rfl
        simp at he)
      (fun e he j hj => by
        rcases List.mem_cons.mp he with rfl | he
        · rfl
        rcases List.mem_cons.mp he with rfl | he
        · rfl
        simp at he)
    exact h⟩

/-- Counterexample to C4 as stated, at the concrete input of the test
"should fallback if the websocket is forever connecting, then proceed
with the ws provider when the fallback fails, eventually failing": the
first endpoint's socket is forever `CONNECTING` and the second endpoint's
invocation explicitly fails, yet `perform` reports the distinguished
timeout outcome rather than an aggregated failure naming the last
attempted endpoint, contradicting the claim's "whenever at least one
explicit invocation failure occurred, the aggregated failure instead
names the last attempted endpoint". -/
theorem timeout_despite_invocation_failure :
    (failingEndpoint "2").invoke 0 = none ∧
    perform [wsEndpoint "1" (fun _ => .CONNECTING) "1",
        failingEndpoint "2"] =
      (.timeoutExceeded, [("2", 0)]) ∧
    ∀ n, (perform [wsEndpoint "1" (fun _ => .CONNECTING) "1",
        failingEndpoint "2"]).1 ≠ .endpointFailure n := by
  refine ⟨rfl, rfl, ?_⟩
  intro n h
  have h1 : PerformOutcome.timeoutExceeded = PerformOutcome.endpointFailure n := h
  exact PerformOutcome.noConfusion h1

/-- C4 amended: `perform` reports the distinguished "timeout exceeded"
outcome exactly when the final failure event is a deferred endpoint still
unready at its revisit; an earlier explicit invocation failure does not
force a named-endpoint error.  First conjunct: without socket transports
no readiness deferral exists and the timeout outcome is impossible, so a
timeout can only be caused by readiness never being achieved for a
deferred endpoint.  Second conjunct: with a first endpoint whose socket
never leaves `CONNECTING` and a second, always-failing plain endpoint,
exhaustion ends at the revisit of the never-ready endpoint and the
timeout outcome is reported even though an invocation failure occurred. -/
theorem timeout_reporting_policy :
    (∀ (es : List Endpoint), (∀ e ∈ es, e.socket = none) →
        (perform es).1 ≠ .timeoutExceeded) ∧
    (∀ (e₁ : Endpoint) (f : Nat → WsReadyState) (e₂ : Endpoint),
        e₁.socket = some f → (∀ t, f t = .CONNECTING) →
        e₂.socket = none →
        (∀ j, j < e₂.maxAttempts → e₂.invoke j = none) →
        perform [e₁, e₂] =
          (.timeoutExceeded,
            (List.range' 0 e₂.maxAttempts).map (fun j => (e₂.name, j)))) := by
  constructor
  · intro es hsock
    have hinv := runPass_plain_inv es [] [] none hsock
    unfold perform
    cases hres : (runPass es [] [] none).result with
    | some r => simp only [hres]; intro h; cases h
    | none =>
      simp only [hres]
      rw [hinv.1]
      rw [runRevisit]
      rcases hinv.2 with hl | ⟨n, hl⟩
      · rw [hl]; intro h; cases h
      · rw [hl]; intro h; cases h
  · intro e₁ f e₂ hs1 hconn hs2 hfail
    have hg1 : gateCheck e₁ (List.length ([] : List TraceEntry)) =
        .deferCandidate := by
      unfold gateCheck
      rw [hs1]
      dsimp only
      rw [hconn]
    have hA2 := attemptFrom_allFail e₂ e₂.maxAttempts 0 []
      (fun j _ hj => hfail j (by omega))
    rw [List.nil_append] at hA2
    have hg2 : gateCheck e₂
        (List.length ([] : List TraceEntry)) = .ready :=
      gateCheck_of_no_socket e₂ _ hs2
    have hstep1 := runPass_cons_defer e₁ [e₂] [] [] none hg1
    rw [List.nil_append] at hstep1
    have hstep2 := runPass_cons_ready_none e₂ [] [] _ [e₁] none hg2 hA2
    have hg1' : gateCheck e₁ (List.length
        ((List.range' 0 e₂.maxAttempts).map (fun j => (e₂.name, j)))) ≠
        .ready := by
      unfold gateCheck
      rw [hs1]
      dsimp only
      rw [hconn]
      intro h
      cases h
    have hrev := runRevisit_cons_unready e₁ []
      ((List.range' 0 e₂.maxAttempts).map (fun j => (e₂.name, j)))
      (some (.invocation e₂.name)) hg1'
    unfold perform
    rw [hstep1, hstep2, runPass]
    simp only
    rw [hrev, runRevisit]

/-- Witness for the amended C4 at the test's concrete input: forever
connecting socket endpoint plus an always-failing plain endpoint gives
the distinguished timeout outcome. -/
theorem timeout_reporting_policy_witness :
    (wsEndpoint "1" (fun _ => .CONNECTING) "1").socket =
      some (fun _ => .CONNECTING) ∧
    perform [wsEndpoint "1" (fun _ => .CONNECTING) "1",
        failingEndpoint "2"] =
      (.timeoutExceeded, [("2", 0)]) :=
  ⟨rfl, by
    have h := timeout_reporting_policy.2
      (wsEndpoint "1" (fun _ => .CONNECTING) "1") (fun _ => .CONNECTING)
      (failingEndpoint "2") rfl (fun t => rfl) rfl (fun j hj => rfl)
    exact h⟩

/-- C5: when the ordered pass ends with no success and an endpoint was
deferred for non-readiness, the dispatcher makes exactly one bounded
second attempt on the deferred endpoint before declaring total failure:
here the first endpoint's socket is `CONNECTING` when first consulted, so
it is deferred un-invoked; the second endpoint exhausts its whole budget;
and because the socket reached `OPEN` as a side effect of those failing
invocations, the revisit invokes the deferred endpoint once and its
result is returned.  The trace is exactly the second endpoint's budget
followed by the single revisit invocation. -/
theorem deferred_revisit_success
    (e₁ : Endpoint) (f : Nat → WsReadyState) (e₂ : Endpoint) (r : String)
    (hs1 : e₁.socket = some f) (hc0 : f 0 = .CONNECTING)
    (hs2 : e₂.socket = none)
    (hfail : ∀ j, j < e₂.maxAttempts → e₂.invoke j = none)
    (hopen : f e₂.maxAttempts = .OPEN)
    (hsucc : e₁.invoke 0 = some r) :
    perform [e₁, e₂] =
      (.success r,
        (List.range' 0 e₂.maxAttempts).map (fun j => (e₂.name, j)) ++
          [(e₁.name, 0)]) := by
  have hg1 : gateCheck e₁ (List.length ([] : List TraceEntry)) =
      .deferCandidate := by
    unfold gateCheck
    rw [hs1]
    dsimp only
    rw [List.length_nil, hc0]
  have hA2 := attemptFrom_allFail e₂ e₂.maxAttempts 0 []
    (fun j _ hj => hfail j (by omega))
  rw [List.nil_append] at hA2
  have hg2 : gateCheck e₂ (List.length ([] : List TraceEntry)) = .ready :=
    gateCheck_of_no_socket e₂ _ hs2
  have hstep1 := runPass_cons_defer e₁ [e₂] [] [] none hg1
  rw [List.nil_append] at hstep1
  have hstep2 := runPass_cons_ready_none e₂ [] [] _ [e₁] none hg2 hA2
  have hg1' : gateCheck e₁ (List.length
      ((List.range' 0 e₂.maxAttempts).map (fun j => (e₂.name, j)))) =
      .ready := by
    unfold gateCheck
    rw [hs1]
    dsimp only
    rw [show ((List.range' 0 e₂.maxAttempts).map
      (fun j => (e₂.name, j))).length = e₂.maxAttempts from by simp]
    rw [hopen]
  have hA1 := attemptFrom_firstSuccess e₁ r e₁.maxAttempts 0 0
    ((List.range' 0 e₂.maxAttempts).map (fun j => (e₂.name, j)))
    (Nat.le_refl 0) (by have := maxAttempts_pos e₁; omega)
    (fun j _ hj => absurd hj (by omega)) hsucc
  have hrev := runRevisit_cons_ready_some e₁ []
    ((List.range' 0 e₂.maxAttempts).map (fun j => (e₂.name, j))) _
    (some (.invocation e₂.name)) r hg1' hA1
  unfold perform
  rw [hstep1, hstep2, runPass]
  simp only
  rw [hrev]
  simp

/-- Witness for C5 at the test's concrete input: a websocket endpoint
that is connecting at first and open from global time 1 on, and a failing
fallback whose invocation's side effect is that readiness change; the
revisit returns the websocket endpoint's result. -/
theorem deferred_revisit_success_witness :
    (wsEndpoint "1" (fun t => if t == 0 then .CONNECTING else .OPEN)
        "1").socket =
      some (fun t => if t == 0 then .CONNECTING else .OPEN) ∧
    perform [wsEndpoint "1" (fun t => if t == 0 then .CONNECTING else .OPEN)
        "1", failingEndpoint "2"] =
      (.success "1", [("2", 0), ("1", 0)]) :=
  ⟨rfl, by
    have h := deferred_revisit_success
      (wsEndpoint "1" (fun t => if t == 0 then .CONNECTING else .OPEN) "1")
      (fun t => if t == 0 then .CONNECTING else .OPEN)
      (failingEndpoint "2") "1" rfl rfl rfl (fun j hj => rfl) rfl rfl
    exact h⟩

/-- C6: a socket-backed first endpoint whose ready state is `CLOSING`,
`CLOSED`, or `CONNECTING` without ever reaching `OPEN` is never invoked
during the ordered pass — the trace of the whole call is exactly the
ready second endpoint's single successful invocation, whose result is
returned (first conjunct); and endpoints lacking a stateful transport are
always gate-ready (second conjunct). -/
theorem unready_socket_never_invoked :
    (∀ (e₁ : Endpoint) (f : Nat → WsReadyState) (e₂ : Endpoint)
        (r : String),
        e₁.socket = some f → (∀ t, f t ≠ .OPEN) →
        e₂.socket = none → e₂.invoke 0 = some r →
        perform [e₁, e₂] = (.success r, [(e₂.name, 0)])) ∧
    (∀ (e : Endpoint) (t : Nat), e.socket = none →
        gateCheck e t = .ready) := by
  constructor
  · intro e₁ f e₂ r hs1 hno hs2 hsucc
    have hg2 : gateCheck e₂ (List.length ([] : List TraceEntry)) = .ready :=
      gateCheck_of_no_socket e₂ _ hs2
    have hA2 := attemptFrom_firstSuccess e₂ r e₂.maxAttempts 0 0 []
      (Nat.le_refl 0) (by have := maxAttempts_pos e₂; omega)
      (fun j _ hj => absurd hj (by omega)) hsucc
    simp only [Nat.sub_zero, List.nil_append, Nat.zero_add,
      List.range'_one, List.map_cons, List.map_nil] at hA2
    have h2succ : ∀ (d : List Endpoint), runPass [e₂] [] d none =
        ⟨some r, [(e₂.name, 0)], d, none⟩ := fun d =>
      runPass_cons_ready_some e₂ [] [] [(e₂.name, 0)] d none r hg2 hA2
    cases h01 : f 0 with
    | OPEN => exact absurd h01 (hno 0)
    | CONNECTING =>
      have hg1 : gateCheck e₁ (List.length ([] : List TraceEntry)) =
          .deferCandidate := by
        unfold gateCheck
        rw [hs1]
        dsimp only
        rw [List.length_nil, h01]
      unfold perform
      rw [runPass_cons_defer e₁ [e₂] [] [] none hg1, h2succ]
    | CLOSING =>
      have hg1 : gateCheck e₁ (List.length ([] : List TraceEntry)) =
          .skip := by
        unfold gateCheck
        rw [hs1]
        dsimp only
        rw [List.length_nil, h01]
      unfold perform
      rw [runPass_cons_skip e₁ [e₂] [] [] none hg1, h2succ]
    | CLOSED =>
      have hg1 : gateCheck e₁ (List.length ([] : List TraceEntry)) =
          .skip := by
        unfold gateCheck
        rw [hs1]
        dsimp only
        rw [List.length_nil, h01]
      unfold perform
      rw [runPass_cons_skip e₁ [e₂] [] [] none hg1, h2succ]
  · intro e t h
    exact gateCheck_of_no_socket e t h

/-- Witness for C6 at the test's concrete input: a websocket first
endpoint stuck in `CLOSING` and a ready second endpoint; the first is
never invoked and the second's result is returned. -/
theorem unready_socket_never_invoked_witness :
    (wsEndpoint "1" (fun _ => .CLOSING) "1").socket =
      some (fun _ => .CLOSING) ∧
    perform [wsEndpoint "1" (fun _ => .CLOSING) "1",
        mockEndpoint "2" "2" 1] =
      (.success "2", [("2", 0)]) :=
  ⟨rfl, by
    have h := unready_socket_never_invoked.1
      (wsEndpoint "1" (fun _ => .CLOSING) "1") (fun _ => .CLOSING)
      (mockEndpoint "2" "2" 1) "2" rfl
      (fun t hc => WsReadyState.noConfusion hc) rfl rfl
    exact h⟩

/-- C7: with at least one detected endpoint and all detected identities
equal to `n`, `validateAndGetNetwork` returns `n` as the network and
exactly the detected endpoints, in their original relative order (the
filter preserves order); undetected endpoints are silently excluded. -/
theorem validate_consistent_networks
    (es : List Endpoint) (n : Nat)
    (hsome : ∃ e ∈ es, e.network = some n)
    (hall : ∀ e ∈ es, ∀ m, e.network = some m → m = n) :
    validateAndGetNetwork es =
      .ok (n, es.filter (fun e => e.network.isSome)) := by
  obtain ⟨e0, he0, hen0⟩ := hsome
  have hie : es.isEmpty = false := by
    cases es with
    | nil => simp at he0
    | cons a t => rfl
  have hmem : ∀ m ∈ es.filterMap (fun e => e.network), m = n := by
    intro m hm
    rw [List.mem_filterMap] at hm
    obtain ⟨x, hx, hxm⟩ := hm
    exact hall x hx m hxm
  have hnmem : n ∈ es.filterMap (fun e => e.network) :=
    List.mem_filterMap.mpr ⟨e0, he0, hen0⟩
  unfold validateAndGetNetwork
  simp only [hie, Bool.false_eq_true, if_false]
  cases hfm : es.filterMap (fun e => e.network) with
  | nil => rw [hfm] at hnmem; simp at hnmem
  | cons m rest =>
    rw [hfm] at hmem
    have hm : m = n := hmem m (List.mem_cons_self m rest)
    have hrest : rest.all (fun x => x == m) = true := by
      rw [List.all_eq_true]
      intro x hx
      have hxn := hmem x (List.mem_cons_of_mem m hx)
      simp [hxn, hm]
    rw [hm] at hrest
    simp only [hm, hrest, if_true]

/-- Witness for C7 at the test's concrete input: endpoint identities
`[1, 0, 1]` (the middle endpoint undetected); the result network is `1`
and the eligible endpoints are exactly the first and third, in order. -/
theorem validate_consistent_networks_witness :
    (⟨"2", 0, none, fun _ => some "2", none⟩ : Endpoint).network = none ∧
    validateAndGetNetwork [mockEndpoint "1" "1" 1,
        ⟨"2", 0, none, fun _ => some "2", none⟩,
        mockEndpoint "3" "3" 1] =
      .ok (1, [mockEndpoint "1" "1" 1, mockEndpoint "3" "3" 1]) :=
  ⟨rfl, by
    have h := validate_consistent_networks
      [mockEndpoint "1" "1" 1, ⟨"2", 0, none, fun _ => some "2", none⟩,
        mockEndpoint "3" "3" 1] 1
      ⟨mockEndpoint "1" "1" 1, List.mem_cons_self _ _, rfl⟩
      (fun e he m hm => by
        rcases List.mem_cons.mp he with rfl | he
        · exact (Option.some.inj hm).symm
        rcases List.mem_cons.mp he with rfl | he
        · exact absurd hm (by simp)
        rcases List.mem_cons.mp he with rfl | he
        · exact (Option.some.inj hm).symm
        simp at he)
    exact h⟩

/-- C8: for the empty input sequence, `validateAndGetNetwork` fails with
`NO_PROVIDER` — by the first branch of the definition, before any network
is inspected or any call attempted. -/
theorem validate_empty_no_provider :
    validateAndGetNetwork [] = .error .NO_PROVIDER := rfl

/-- C9: whenever the detected (non-sentinel) network identities contain
two distinct values, `validateAndGetNetwork` fails with
`INCONSISTENT_NETWORKS`. -/
theorem validate_inconsistent_networks
    (es : List Endpoint) (a b : Nat)
    (ha : a ∈ es.filterMap (fun e => e.network))
    (hb : b ∈ es.filterMap (fun e => e.network))
    (hab : a ≠ b) :
    validateAndGetNetwork es = .error .INCONSISTENT_NETWORKS := by
  have hie : es.isEmpty = false := by
    cases es with
    | nil => simp at ha
    | cons x t => rfl
  unfold validateAndGetNetwork
  simp only [hie, Bool.false_eq_true, if_false]
  cases hfm : es.filterMap (fun e => e.network) with
  | nil => rw [hfm] at ha; simp at ha
  | cons m rest =>
    rw [hfm] at ha hb
    have hwitness : ∃ c ∈ rest, c ≠ m := by
      by_cases ham : a = m
      · have hbm : b ≠ m := fun hc => hab (ham ▸ hc.symm ▸ rfl)
        rcases List.mem_cons.mp hb with hc | hc
        · exact absurd hc hbm
        · exact ⟨b, hc, hbm⟩
      · rcases List.mem_cons.mp ha with hc | hc
        · exact absurd hc ham
        · exact ⟨a, hc, ham⟩
    obtain ⟨c, hcr, hcm⟩ := hwitness
    have hrest : rest.all (fun x => x == m) = false := by
      rw [List.all_eq_false]
      exact ⟨c, hcr, by simp [hcm]⟩
    simp only [hrest, Bool.false_eq_true, if_false]

/-- Witness for C9 at the test's concrete input: two endpoints detected
on networks `1` and `2`; validation fails with `INCONSISTENT_NETWORKS`. -/
theorem validate_inconsistent_networks_witness :
    (1 : Nat) ≠ 2 ∧
    validateAndGetNetwork [mockEndpoint "1" "1" 1, mockEndpoint "2" "2" 2] =
      .error .INCONSISTENT_NETWORKS :=
  ⟨by decide, by
    have h := validate_inconsistent_networks
      [mockEndpoint "1" "1" 1, mockEndpoint "2" "2" 2] 1 2
      (by decide) (by decide) (by decide)
    exact h⟩

/-- C10: `isWebSocketProvider` returns true exactly when the value is an
`instanceof WebSocketProvider` or carries a truthy `_websocket` property
(first conjunct); in particular a value that is not a `WebSocketProvider`
instance but has a truthy `_websocket` field is still classified as
socket-backed (second conjunct) — such providers are the ones routed
through the Readiness Gate, all others being treated as always ready. -/
theorem isWebSocketProvider_spec :
    (∀ p : ProviderLike, isWebSocketProvider p = true ↔
        (p.isWebSocketProviderInstance = true ∨ p.websocketTruthy = true)) ∧
    (∀ p : ProviderLike, p.isWebSocketProviderInstance = false →
        p.websocketTruthy = true → isWebSocketProvider p = true) := by
  constructor
  · intro p
    simp [isWebSocketProvider, Bool.or_eq_true]
  · intro p h1 h2
    simp [isWebSocketProvider, h1, h2]

/-- Witness for C10: a value that is not a `WebSocketProvider` instance
but has a truthy `_websocket` field is classified as socket-backed. -/
theorem isWebSocketProvider_spec_witness :
    (⟨false, true⟩ : ProviderLike).isWebSocketProviderInstance = false ∧
    isWebSocketProvider ⟨false, true⟩ = true :=
  ⟨rfl, isWebSocketProvider_spec.2 ⟨false, true⟩ rfl rfl⟩

/-- Witness for C1 at the test's concrete input: two ready endpoints where
the first succeeds; `perform` returns the first's result and the second
is never invoked. -/
theorem perform_first_success_short_circuits_witness :
    (runPass [] [] [] none).result = none ∧
    (0 : Nat) < (mockEndpoint "1" "1" 1).maxAttempts ∧
    perform [mockEndpoint "1" "1" 1, mockEndpoint "2" "2" 1] =
      (.success "1", [("1", 0)]) :=
  ⟨rfl, by decide, by
    have h := perform_first_success_short_circuits []
      (mockEndpoint "1" "1" 1) [mockEndpoint "2" "2" 1] 0 "1" rfl rfl
      (fun j hj => absurd hj (Nat.not_lt_zero j)) rfl (by decide)
    exact h⟩

end FallbackProvider
